/-
Verification of the hybrid skill-extraction and discovery pipeline
(etl/skill_extractor: fast_path.py, slow_path.py, hybrid.py,
skill_discovery.py), as a shallow embedding in Lean 4.

Conventions of the embedding:
  * Python strings are Lean `String`s; `str.strip`/`str.lower`/`len` are
    re-implemented character-for-character as `pyStrip`/`pyLower`/list length.
  * Python floats are embedded as rationals (`ℚ`); `int()` truncation and
    banker's `round()` are `pyInt` and `pyRound`.
  * Python dicts used as ordered maps are association lists with
    insertion-order-preserving update (`assocSet`), mirroring CPython's
    insertion-ordered dicts; `list.sort(key=…, reverse=True)` is the stable
    descending insertion sort `sortDescBy`.
  * The GLiNER model itself is opaque: it enters as a function
    `String → List GEntity` (or `none` when loading failed), and the code
    around it is embedded faithfully.
-/

import Mathlib

/-! ## Python string primitives -/

/-- Whitespace characters stripped by Python's `str.strip()` (ASCII range). -/
def pySpace (c : Char) : Bool :=
  c = ' ' || c = '\t' || c = '\n' || c = '\r' || c = Char.ofNat 11 || c = Char.ofNat 12

def pyStripList (l : List Char) : List Char :=
  ((l.dropWhile pySpace).reverse.dropWhile pySpace).reverse

/-- Python `str.strip()`. -/
def pyStrip (s : String) : String := String.mk (pyStripList s.toList)

/-- Python `str.lower()` (ASCII case mapping, as in all taxonomy data). -/
def pyLower (s : String) : String := String.mk (s.toList.map Char.toLower)

/-- Python `len(s)` (code points). -/
def pyLen (s : String) : Nat := s.toList.length

/-- Python slicing `s[:n]`. -/
def pyTake (n : Nat) (s : String) : String := String.mk (s.toList.take n)

/-- Python `int()` applied to a (model of a) float: truncation toward zero. -/
def pyInt (q : ℚ) : ℤ := if q < 0 then -⌊-q⌋ else ⌊q⌋

/-- Python `round()` applied to a (model of a) float: nearest, ties to even. -/
def pyRound (q : ℚ) : ℤ :=
  if q - ⌊q⌋ < 1/2 then ⌊q⌋
  else if (1 : ℚ)/2 < q - ⌊q⌋ then ⌊q⌋ + 1
  else if ⌊q⌋ % 2 = 0 then ⌊q⌋ else ⌊q⌋ + 1

/-! ## Association lists standing for Python dicts -/

/-- Dict lookup `d.get(k)` / `d[k]`. -/
def alookup (k : String) : List (String × α) → Option α
  | [] => none
  | (k', v) :: rest => if k' = k then some v else alookup k rest

/-- Dict assignment `d[k] = v`: replaces in place, keeping the key's original
insertion position, or appends a fresh key at the end (CPython dict order). -/
def assocSet (k : String) (v : α) : List (String × α) → List (String × α)
  | [] => [(k, v)]
  | (k', v') :: rest => if k' = k then (k', v) :: rest else (k', v') :: assocSet k v rest

theorem alookup_assocSet_self (k : String) (v : α) (m : List (String × α)) :
    alookup k (assocSet k v m) = some v := by
  induction m with
  | nil => simp [assocSet, alookup]
  | cons kv rest ih =>
    obtain ⟨k', v'⟩ := kv
    by_cases h : k' = k
    · simp [assocSet, alookup, h]
    · simp [assocSet, alookup, h, ih]

theorem alookup_assocSet_ne (k k' : String) (v : α) (m : List (String × α))
    (h : k ≠ k') : alookup k (assocSet k' v m) = alookup k m := by
  have h' : k' ≠ k := Ne.symm h
  induction m with
  | nil => simp [assocSet, alookup, h']
  | cons kv rest ih =>
    obtain ⟨k₀, v₀⟩ := kv
    by_cases h₀ : k₀ = k'
    · subst h₀
      simp [assocSet, alookup, h']
    · by_cases h₁ : k₀ = k
      · simp [assocSet, alookup, h₀, h₁, h]
      · simp [assocSet, alookup, h₀, h₁, ih]

theorem alookup_append_of_isSome (k : String) (m l : List (String × α))
    (h : (alookup k m).isSome) : alookup k (m ++ l) = alookup k m := by
  induction m with
  | nil => simp [alookup] at h
  | cons kv rest ih =>
    obtain ⟨k', v'⟩ := kv
    by_cases hk : k' = k
    · simp [alookup, hk]
    · simp only [alookup, hk, if_false, List.cons_append]
      simp only [alookup, hk, if_false] at h
      exact ih h

/-! ## Stable descending sort (Python `list.sort(key=…, reverse=True)`) -/

def insertDesc (key : α → Nat) (x : α) : List α → List α
  | [] => [x]
  | y :: ys => if key x < key y then y :: insertDesc key x ys else x :: y :: ys

def sortDescBy (key : α → Nat) : List α → List α
  | [] => []
  | x :: xs => insertDesc key x (sortDescBy key xs)

theorem insertDesc_perm (key : α → Nat) (x : α) (l : List α) :
    List.Perm (insertDesc key x l) (x :: l) := by
  induction l with
  | nil => simp [insertDesc]
  | cons y ys ih =>
    by_cases h : key x < key y
    · simp only [insertDesc, h, if_true]
      exact ((ih.cons y).trans (List.Perm.swap x y ys))
    · simp [insertDesc, h]

theorem sortDescBy_perm (key : α → Nat) (l : List α) :
    List.Perm (sortDescBy key l) l := by
  induction l with
  | nil => simp [sortDescBy]
  | cons x xs ih =>
    exact (insertDesc_perm key x (sortDescBy key xs)).trans (ih.cons x)

theorem insertDesc_pairwise (key : α → Nat) (x : α) (l : List α)
    (h : l.Pairwise (fun a b => key b ≤ key a)) :
    (insertDesc key x l).Pairwise (fun a b => key b ≤ key a) := by
  induction l with
  | nil => simp [insertDesc]
  | cons y ys ih =>
    rcases List.pairwise_cons.mp h with ⟨hy, hys⟩
    by_cases hlt : key x < key y
    · simp only [insertDesc, hlt, if_true]
      refine List.pairwise_cons.mpr ⟨?_, ih hys⟩
      intro b hb
      rcases List.mem_cons.mp ((insertDesc_perm key x ys).mem_iff.mp hb) with hb' | hb'
      · exact hb' ▸ Nat.le_of_lt hlt
      · exact hy b hb'
    · simp only [insertDesc, hlt, if_false]
      refine List.pairwise_cons.mpr ⟨?_, h⟩
      intro b hb
      rcases List.mem_cons.mp hb with hb | hb
      · exact hb ▸ Nat.le_of_not_lt hlt
      · exact le_trans (hy b hb) (Nat.le_of_not_lt hlt)

theorem sortDescBy_pairwise (key : α → Nat) (l : List α) :
    (sortDescBy key l).Pairwise (fun a b => key b ≤ key a) := by
  induction l with
  | nil => simp [sortDescBy]
  | cons x xs ih => exact insertDesc_pairwise key x _ ih

/-! ## Discovery manager (skill_discovery.py) -/

/-- Candidate skill dict handed to the discovery manager
(`skill_name`, `category`, `subcategory`, `confidence`); `confidence`
carries the dict's `.get('confidence', 0.8)` default already resolved. -/
structure Candidate where
  skill_name : String
  category : String
  subcategory : String
  confidence : ℚ
deriving DecidableEq

/-- `DiscoveredSkill` dataclass. Timestamps are abstract ticks (ℕ). -/
structure DiscoveredSkill where
  name : String
  category : String
  subcategory : String
  first_seen : Nat
  last_seen : Nat
  occurrence_count : Nat
  avg_confidence : ℚ
  sample_contexts : List String
  is_promoted : Bool
deriving DecidableEq

/-- `SkillDiscoveryManager.discovered_skills`: insertion-ordered map from
normalized (lower-cased) name to the discovery record. -/
abbrev DiscoveryState := List (String × DiscoveredSkill)

/-- `SkillDiscoveryManager.MIN_OCCURRENCES_FOR_PROMOTION`. -/
def MIN_OCCURRENCES_FOR_PROMOTION : Nat := 3

/-- `SkillDiscoveryManager.MIN_CONFIDENCE_FOR_PROMOTION`. -/
def MIN_CONFIDENCE_FOR_PROMOTION : ℚ := 0.75

/-- `SkillDiscoveryManager._normalize_skill_name`. -/
def normalize_skill_name (name : String) : String := pyLower (pyStrip name)

/-- `SkillDiscoveryManager.record_discovery`, with `now` the current clock
tick; returns (is_new, updated state). -/
def record_discovery (skill : Candidate) (context : String) (now : Nat)
    (st : DiscoveryState) : Bool × DiscoveryState :=
  let name := pyStrip skill.skill_name
  if name = "" ∨ pyLen name < 2 then (false, st)
  else
    let key := normalize_skill_name name
    let confidence := skill.confidence
    match alookup key st with
    | some existing =>
        let n := existing.occurrence_count + 1
        let updated : DiscoveredSkill :=
          ⟨existing.name, existing.category, existing.subcategory,
           existing.first_seen, now, n,
           (existing.avg_confidence * ((n : ℚ) - 1) + confidence) / (n : ℚ),
           if context ≠ "" ∧ existing.sample_contexts.length < 5
           then existing.sample_contexts ++ [pyTake 100 context]
           else existing.sample_contexts,
           existing.is_promoted⟩
        (false, assocSet key updated st)
    | none =>
        (true, st ++ [(key,
          ⟨name, skill.category, skill.subcategory, now, now, 1, confidence,
           if context ≠ "" then [pyTake 100 context] else [], false⟩)])

/-- `SkillDiscoveryManager.record_discoveries_batch`:
((new_count, updated_count), final state). -/
def record_discoveries_batch (skills : List Candidate) (context : String)
    (now : Nat) (st : DiscoveryState) : (Nat × Nat) × DiscoveryState :=
  match skills with
  | [] => ((0, 0), st)
  | skill :: rest =>
    let r := record_discovery skill context now st
    let acc := record_discoveries_batch rest context now r.2
    if r.1 then ((acc.1.1 + 1, acc.1.2), acc.2) else ((acc.1.1, acc.1.2 + 1), acc.2)

/-- Filter of `SkillDiscoveryManager.get_promotion_candidates`: not yet
promoted, occurrences and average confidence at or above the thresholds. -/
def promotionEligible (s : DiscoveredSkill) : Bool :=
  !s.is_promoted && decide (MIN_OCCURRENCES_FOR_PROMOTION ≤ s.occurrence_count)
    && decide (MIN_CONFIDENCE_FOR_PROMOTION ≤ s.avg_confidence)

/-- `SkillDiscoveryManager.get_promotion_candidates`. -/
def get_promotion_candidates (st : DiscoveryState) : List DiscoveredSkill :=
  sortDescBy (fun s => s.occurrence_count)
    ((st.map Prod.snd).filter promotionEligible)

/-- `SkillDiscoveryManager.promote_to_taxonomy` restricted to the manager's
own state (the taxonomy-file, database and live-extractor side effects do not
touch `discovered_skills`); returns (success, updated state). -/
def promote_to_taxonomy (skill_name : String) (st : DiscoveryState) :
    Bool × DiscoveryState :=
  let key := normalize_skill_name skill_name
  match alookup key st with
  | none => (false, st)
  | some skill =>
    if skill.is_promoted then (true, st)
    else
      (true, assocSet key
        ⟨skill.name, skill.category, skill.subcategory, skill.first_seen,
         skill.last_seen, skill.occurrence_count, skill.avg_confidence,
         skill.sample_contexts, true⟩ st)

/-- The manager's state-mutating operations, for stating invariants that hold
across every sequence of calls. -/
inductive ManagerOp where
  | recordOp (skill : Candidate) (context : String) (now : Nat) : ManagerOp
  | promoteOp (name : String) : ManagerOp

def applyManagerOp : ManagerOp → DiscoveryState → DiscoveryState
  | .recordOp skill context now, st => (record_discovery skill context now st).2
  | .promoteOp name, st => (promote_to_taxonomy name st).2

/-! ## Claims about the discovery manager -/

/-- C1: `get_promotion_candidates` returns exactly the stored, not-yet-promoted
entries with `occurrence_count >= 3` and `avg_confidence >= 0.75`, sorted by
descending `occurrence_count`; an entry with `occurrence_count = 2` is never
returned regardless of confidence, one with count 3 and confidence 0.75 is
returned, and one with count 3 and confidence 0.74 is not. -/
theorem promotion_candidates_characterization (st : DiscoveryState) :
    List.Perm (get_promotion_candidates st)
      ((st.map Prod.snd).filter promotionEligible)
    ∧ (∀ s : DiscoveredSkill, s ∈ get_promotion_candidates st ↔
        s ∈ st.map Prod.snd ∧ s.is_promoted = false ∧
        3 ≤ s.occurrence_count ∧ (0.75 : ℚ) ≤ s.avg_confidence)
    ∧ (get_promotion_candidates st).Pairwise
        (fun a b => b.occurrence_count ≤ a.occurrence_count)
    ∧ (∀ s : DiscoveredSkill, s.occurrence_count = 2 →
        s ∉ get_promotion_candidates st)
    ∧ (∀ s : DiscoveredSkill, s ∈ st.map Prod.snd → s.is_promoted = false →
        s.occurrence_count = 3 → s.avg_confidence = 0.75 →
        s ∈ get_promotion_candidates st)
    ∧ (∀ s : DiscoveredSkill, s.occurrence_count = 3 → s.avg_confidence = 0.74 →
        s ∉ get_promotion_candidates st) := by
  have hmem : ∀ s : DiscoveredSkill, s ∈ get_promotion_candidates st ↔
      s ∈ st.map Prod.snd ∧ s.is_promoted = false ∧
      3 ≤ s.occurrence_count ∧ (0.75 : ℚ) ≤ s.avg_confidence := by
    intro s
    rw [get_promotion_candidates, (sortDescBy_perm _ _).mem_iff, List.mem_filter,
      promotionEligible, MIN_OCCURRENCES_FOR_PROMOTION, MIN_CONFIDENCE_FOR_PROMOTION]
    simp [Bool.and_eq_true, decide_eq_true_eq, Bool.not_eq_true', and_assoc]
  refine ⟨sortDescBy_perm _ _, hmem, sortDescBy_pairwise _ _, ?_, ?_, ?_⟩
  · intro s h2 hs
    have := ((hmem s).mp hs).2.2.1
    omega
  · intro s hval hprom hocc hconf
    exact (hmem s).mpr ⟨hval, hprom, by omega, by rw [hconf]⟩
  · intro s hocc hconf hs
    have := ((hmem s).mp hs).2.2.2
    rw [hconf] at this
    norm_num at this

/-- C2: recording the skill "DuckDB" three times with confidences 0.8, 0.9,
0.75 starting from the empty state yields a single DiscoveredSkill with
occurrence_count = 3 and avg_confidence the running mean 49/60 ≈ 0.8167, and
that skill appears in get_promotion_candidates. -/
def duckdbFinal : DiscoveredSkill := ⟨"DuckDB", "Database", "", 0, 2, 3, 49/60, [], false⟩

def duckdbState : DiscoveryState :=
  (record_discovery ⟨"DuckDB", "Database", "", 0.75⟩ "" 2
    (record_discovery ⟨"DuckDB", "Database", "", 0.9⟩ "" 1
      (record_discovery ⟨"DuckDB", "Database", "", 0.8⟩ "" 0 []).2).2).2

/-- C2: the DuckDB round trip: one aggregated entry, count 3, average
confidence 49/60 (which lies between 0.8166 and 0.8167), and the entry is a
promotion candidate. -/
theorem duckdb_roundtrip :
    duckdbState = [("duckdb", duckdbFinal)]
    ∧ duckdbFinal.occurrence_count = 3
    ∧ duckdbFinal.avg_confidence = ((0.8 * (2 - 1) + 0.9) / 2 * (3 - 1) + 0.75) / 3
    ∧ (0.8166 : ℚ) ≤ duckdbFinal.avg_confidence
    ∧ duckdbFinal.avg_confidence ≤ (0.8167 : ℚ)
    ∧ get_promotion_candidates duckdbState = [duckdbFinal] := by
  have e1 : pyStrip "DuckDB" = "DuckDB" := by decide
  have e3 : normalize_skill_name "DuckDB" = "duckdb" := by decide
  have e0 : ¬("DuckDB" : String) = "" := by decide
  have s1 : record_discovery ⟨"DuckDB", "Database", "", 0.8⟩ "" 0 [] =
      (true, [("duckdb", ⟨"DuckDB", "Database", "", 0, 0, 1, 0.8, [], false⟩)]) := by
    simp only [record_discovery, e1, e3, alookup]
    norm_num [pyLen, e0]
  have s2 : record_discovery ⟨"DuckDB", "Database", "", 0.9⟩ "" 1
      [("duckdb", ⟨"DuckDB", "Database", "", 0, 0, 1, 0.8, [], false⟩)] =
      (false, [("duckdb", ⟨"DuckDB", "Database", "", 0, 1, 2, 0.85, [], false⟩)]) := by
    simp only [record_discovery, e1, e3, alookup, assocSet]
    norm_num [pyLen, e0]
  have s3 : record_discovery ⟨"DuckDB", "Database", "", 0.75⟩ "" 2
      [("duckdb", ⟨"DuckDB", "Database", "", 0, 1, 2, 0.85, [], false⟩)] =
      (false, [("duckdb", duckdbFinal)]) := by
    simp only [record_discovery, e1, e3, alookup, assocSet, duckdbFinal]
    norm_num [pyLen, e0]
  have hst : duckdbState = [("duckdb", duckdbFinal)] := by
    rw [duckdbState, s1, s2, s3]
  have helig : promotionEligible duckdbFinal = true := by
    simp only [promotionEligible, duckdbFinal, MIN_OCCURRENCES_FOR_PROMOTION,
      MIN_CONFIDENCE_FOR_PROMOTION]
    norm_num
  refine ⟨hst, rfl, by norm_num [duckdbFinal], by norm_num [duckdbFinal],
    by norm_num [duckdbFinal], ?_⟩
  rw [hst]
  simp [get_promotion_candidates, helig, sortDescBy, insertDesc]

/-- C8: promoting an unknown name fails and leaves the state unchanged;
promoting an already-promoted skill returns true and leaves the state
unchanged; and across every manager operation the is_promoted flag is never
reset (it transitions false→true at most once). -/
theorem promotion_monotonicity :
    (∀ (name : String) (st : DiscoveryState),
        alookup (normalize_skill_name name) st = none →
        promote_to_taxonomy name st = (false, st))
    ∧ (∀ (name : String) (st : DiscoveryState) (s : DiscoveredSkill),
        alookup (normalize_skill_name name) st = some s → s.is_promoted = true →
        promote_to_taxonomy name st = (true, st))
    ∧ (∀ (op : ManagerOp) (st : DiscoveryState) (k : String) (s : DiscoveredSkill),
        alookup k st = some s → s.is_promoted = true →
        ∃ s', alookup k (applyManagerOp op st) = some s' ∧ s'.is_promoted = true) := by
  refine ⟨?_, ?_, ?_⟩
  · intro name st h
    simp [promote_to_taxonomy, h]
  · intro name st s h hp
    simp [promote_to_taxonomy, h, hp]
  · intro op st k s h hp
    cases op with
    | promoteOp name =>
      simp only [applyManagerOp, promote_to_taxonomy]
      cases hl : alookup (normalize_skill_name name) st with
      | none => exact ⟨s, h, hp⟩
      | some skill =>
        dsimp only
        cases hsp : skill.is_promoted with
        | true =>
          rw [if_pos rfl]
          exact ⟨s, h, hp⟩
        | false =>
          simp only [hsp, Bool.false_eq_true, if_false]
          by_cases hk : k = normalize_skill_name name
          · subst hk
            rw [alookup_assocSet_self]
            exact ⟨_, rfl, rfl⟩
          · rw [alookup_assocSet_ne _ _ _ _ hk]
            exact ⟨s, h, hp⟩
    | recordOp skill context now =>
      simp only [applyManagerOp, record_discovery]
      by_cases hrej : pyStrip skill.skill_name = "" ∨ pyLen (pyStrip skill.skill_name) < 2
      · simp only [hrej, if_true]
        exact ⟨s, h, hp⟩
      · simp only [hrej, if_false]
        cases hl : alookup (normalize_skill_name (pyStrip skill.skill_name)) st with
        | none =>
          simp only
          rw [alookup_append_of_isSome k st _ (by rw [h]; rfl)]
          exact ⟨s, h, hp⟩
        | some existing =>
          simp only
          by_cases hk : k = normalize_skill_name (pyStrip skill.skill_name)
          · subst hk
            rw [alookup_assocSet_self]
            refine ⟨_, rfl, ?_⟩
            have : existing = s := by rw [hl] at h; exact Option.some.inj h
            simpa [this] using hp
          · rw [alookup_assocSet_ne _ _ _ _ hk]
            exact ⟨s, h, hp⟩

/-- C10: record_discoveries_batch tallies every candidate: new_count plus
updated_count equals the number of candidates; a candidate whose stripped
name is shorter than 2 characters is rejected by record_discovery (state
unchanged, returns false) and is therefore counted in updated_count. -/
theorem batch_tally :
    (∀ (skills : List Candidate) (context : String) (now : Nat) (st : DiscoveryState),
        (record_discoveries_batch skills context now st).1.1 +
        (record_discoveries_batch skills context now st).1.2 = skills.length)
    ∧ (∀ (skill : Candidate) (context : String) (now : Nat) (st : DiscoveryState),
        pyLen (pyStrip skill.skill_name) < 2 →
        record_discovery skill context now st = (false, st))
    ∧ (∀ (skill : Candidate) (rest : List Candidate) (context : String)
        (now : Nat) (st : DiscoveryState),
        pyLen (pyStrip skill.skill_name) < 2 →
        (record_discoveries_batch (skill :: rest) context now st).1.2 =
          (record_discoveries_batch rest context now st).1.2 + 1
        ∧ (record_discoveries_batch (skill :: rest) context now st).1.1 =
          (record_discoveries_batch rest context now st).1.1) := by
  have hrej : ∀ (skill : Candidate) (context : String) (now : Nat) (st : DiscoveryState),
      pyLen (pyStrip skill.skill_name) < 2 →
      record_discovery skill context now st = (false, st) := by
    intro skill context now st h
    simp [record_discovery, Or.inr h]
  have hsum : ∀ (skills : List Candidate) (context : String) (now : Nat)
      (st : DiscoveryState),
      (record_discoveries_batch skills context now st).1.1 +
      (record_discoveries_batch skills context now st).1.2 = skills.length := by
    intro skills context now
    induction skills with
    | nil => intro st; simp [record_discoveries_batch]
    | cons skill rest ih =>
      intro st
      have := ih (record_discovery skill context now st).2
      cases hr : (record_discovery skill context now st).1 with
      | true =>
        simp only [record_discoveries_batch, hr, if_true, List.length_cons]
        omega
      | false =>
        simp only [record_discoveries_batch, hr, Bool.false_eq_true, if_false,
          List.length_cons]
        omega
  refine ⟨hsum, hrej, ?_⟩
  intro skill rest context now st h
  simp only [record_discoveries_batch, hrej skill context now st h, Bool.false_eq_true,
    if_false]
  simp

/-! ## Fast path (fast_path.py): compiled patterns and extraction

The four regex shapes `_compile_pattern` can emit are embedded as literal
matchers with explicit boundary/lookaround conditions, and `findall` as a
left-to-right non-overlapping scan. -/

/-- Regex `\w` over the ASCII data the taxonomy holds. -/
def isWordChar (c : Char) : Bool := c.isAlphanum || c = '_'

def optWord : Option Char → Bool
  | none => false
  | some c => isWordChar c

def optAlpha : Option Char → Bool
  | none => false
  | some c => c.isAlpha

def optAlphaNum : Option Char → Bool
  | none => false
  | some c => c.isAlphanum

/-- Case-insensitive character comparison (re.IGNORECASE). -/
def ciEq (a b : Char) : Bool := a.toLower = b.toLower

/-- Case-insensitive literal match of `lit` at position `i` of `text`. -/
def ciStartsAt (lit : List Char) (text : List Char) (i : Nat) : Bool :=
  match lit with
  | [] => true
  | c :: cs =>
    match text.get? i with
    | none => false
    | some d => ciEq c d && ciStartsAt cs text (i + 1)

/-- Regex `\b` between positions `j-1` and `j`: the word-ness of the two
neighbouring characters differs (outside the text counts as non-word). -/
def bdryAt (text : List Char) (j : Nat) : Bool :=
  optWord (if j = 0 then none else text.get? (j - 1)) != optWord (text.get? j)

/-- The shapes of pattern `_compile_pattern` produces: plain `\b…\b`,
the `(?<![a-zA-Z])…(?![a-zA-Z])` rule (C++, C#), the
`(?<![a-zA-Z])…(?![a-zA-Z0-9])` rule (.NET), and `\bBase\.?js\b`. -/
inductive PatKind where
  | wordBoundary : PatKind
  | alphaLook : PatKind
  | alphaNumLook : PatKind
  | optDotJs : PatKind
deriving DecidableEq

structure CPattern where
  kind : PatKind
  lit : List Char
deriving DecidableEq

/-- Length of the match of pattern `p` at position `i` of `text`, or `none`.
For `optDotJs` the greedy `\.?` is tried with the dot first, as the regex
engine does. -/
def matchLenAt (p : CPattern) (text : List Char) (i : Nat) : Option Nat :=
  match p.kind with
  | .wordBoundary =>
    if ciStartsAt p.lit text i && bdryAt text i && bdryAt text (i + p.lit.length)
    then some p.lit.length else none
  | .alphaLook =>
    if ciStartsAt p.lit text i &&
       !optAlpha (if i = 0 then none else text.get? (i - 1)) &&
       !optAlpha (text.get? (i + p.lit.length))
    then some p.lit.length else none
  | .alphaNumLook =>
    if ciStartsAt p.lit text i &&
       !optAlpha (if i = 0 then none else text.get? (i - 1)) &&
       !optAlphaNum (text.get? (i + p.lit.length))
    then some p.lit.length else none
  | .optDotJs =>
    let base := p.lit.length
    if ciStartsAt p.lit text i && bdryAt text i then
      if text.get? (i + base) = some '.' && ciStartsAt ['j', 's'] text (i + base + 1) &&
         bdryAt text (i + base + 3)
      then some (base + 3)
      else if ciStartsAt ['j', 's'] text (i + base) && bdryAt text (i + base + 2)
      then some (base + 2)
      else none
    else none

/-- `findall` as a scan: count non-overlapping matches left to right, a
zero-width match advancing by one as the `re` module does. -/
def countAux (p : CPattern) (text : List Char) : Nat → Nat → Nat
  | 0, _ => 0
  | fuel + 1, i =>
    if i ≥ text.length + 1 then 0
    else
      match matchLenAt p text i with
      | some len => 1 + countAux p text fuel (i + max len 1)
      | none => countAux p text fuel (i + 1)

/-- `len(pattern.findall(text))`. -/
def countMatches (p : CPattern) (text : List Char) : Nat :=
  countAux p text (text.length + 1) 0

/-- The `special_terms` table of `_compile_pattern`. -/
def special_terms : List (String × CPattern) :=
  [("C++", ⟨.alphaLook, "C++".toList⟩),
   ("C#", ⟨.alphaLook, "C#".toList⟩),
   (".NET", ⟨.alphaNumLook, ".NET".toList⟩),
   ("Node.js", ⟨.optDotJs, "Node".toList⟩),
   ("Vue.js", ⟨.optDotJs, "Vue".toList⟩),
   ("Next.js", ⟨.optDotJs, "Next".toList⟩),
   ("Nuxt.js", ⟨.optDotJs, "Nuxt".toList⟩),
   ("D3.js", ⟨.optDotJs, "D3".toList⟩),
   ("Three.js", ⟨.optDotJs, "Three".toList⟩)]

/-- `FastPathExtractor._compile_pattern`. -/
def compile_pattern (term : String) : CPattern :=
  match alookup term special_terms with
  | some p => p
  | none => ⟨.wordBoundary, term.toList⟩

/-- An entry of the `skills` list of skills_taxonomy.json. -/
structure TaxonomyEntry where
  name : String
  category : String
  subcategory : String
  aliases : List String
deriving DecidableEq

/-- Value stored in `FastPathExtractor.skills`. -/
structure SkillInfo where
  name : String
  category : String
  subcategory : String
deriving DecidableEq

/-- The mutable state of a `FastPathExtractor`. -/
structure FastPathState where
  skills : List (String × SkillInfo)
  known_skill_names : List String
  patterns : List (CPattern × String)
deriving DecidableEq

/-- One iteration of `_load_taxonomy_data`'s loop (also the body of
`add_skill`): store metadata under the lower-cased name and compile one
pattern per term (name and aliases). -/
def add_entry (fp : FastPathState) (e : TaxonomyEntry) : FastPathState :=
  ⟨assocSet (pyLower e.name) ⟨e.name, e.category, e.subcategory⟩ fp.skills,
   if pyLower e.name ∈ fp.known_skill_names then fp.known_skill_names
   else fp.known_skill_names ++ [pyLower e.name],
   fp.patterns ++ (e.name :: e.aliases).map (fun t => (compile_pattern t, e.name))⟩

/-- `FastPathExtractor._load_taxonomy_data`. -/
def load_taxonomy_data (entries : List TaxonomyEntry) : FastPathState :=
  entries.foldl add_entry ⟨[], [], []⟩

/-- `FastPathExtractor.is_known_skill`. -/
def is_known_skill (fp : FastPathState) (skill_name : String) : Bool :=
  fp.known_skill_names.contains (pyLower skill_name)

/-- An extracted-mention dict. Fast-path results use `mention_count`,
discovery results use `confidence`; a key a given producer leaves absent is
carried as 0 / false. -/
structure SkillRec where
  skill_name : String
  category : String
  subcategory : String
  mention_count : Nat
  confidence : ℚ
  extraction_method : String
  verified : Bool
deriving DecidableEq

/-- `found_skills[name] += len(matches)` with insertion on first hit. -/
def addCount (k : String) (n : Nat) : List (String × Nat) → List (String × Nat)
  | [] => [(k, n)]
  | (k', m) :: rest => if k' = k then (k', m + n) :: rest else (k', m) :: addCount k n rest

/-- The pattern loop of `FastPathExtractor.extract_skills`. -/
def found_counts (patterns : List (CPattern × String)) (text : List Char) :
    List (String × Nat) :=
  patterns.foldl (fun acc pc =>
    let c := countMatches pc.1 text
    if 0 < c then addCount pc.2 c acc else acc) []

/-- `FastPathExtractor.extract_skills`. -/
def fast_extract_skills (fp : FastPathState) (text : String) : List SkillRec :=
  if text = "" then []
  else
    let found := found_counts fp.patterns text.toList
    let results := found.map (fun kv =>
      match alookup (pyLower kv.1) fp.skills with
      | some info => ⟨kv.1, info.category, info.subcategory, kv.2, 0, "fast_path", false⟩
      | none => ⟨kv.1, "Unknown", "", kv.2, 0, "fast_path", false⟩)
    sortDescBy (fun r => r.mention_count) results

/-! ## Claims about the fast path -/

def coverageTaxonomy : FastPathState :=
  load_taxonomy_data [⟨"Python", "Programming Language", "", []⟩,
                      ⟨"C++", "Programming Language", "", []⟩]

/-- C3: with a taxonomy of exactly Python (no aliases) and C++ (special-cased
term), extracting from "We use Python, python, and C++ daily." returns
exactly Python with mention count 2 followed by C++ with mention count 1. -/
theorem python_cpp_coverage :
    (fast_extract_skills coverageTaxonomy "We use Python, python, and C++ daily.").map
      (fun r => (r.skill_name, r.mention_count)) = [("Python", 2), ("C++", 1)] := by
  decide

def javaTaxonomy : FastPathState :=
  load_taxonomy_data [⟨"Java", "Programming Language", "", []⟩]

/-- C4: with Java in the taxonomy, "Built with JavaScript" yields no mention
at all; and in general a word-boundary pattern never matches at a position
where the match's last character and the character after it are both word
characters (a term embedded in a longer identifier). -/
theorem java_not_in_javascript :
    fast_extract_skills javaTaxonomy "Built with JavaScript" = []
    ∧ ∀ (term text : List Char) (i : Nat) (c d : Char),
        term ≠ [] →
        text.get? (i + term.length - 1) = some c →
        text.get? (i + term.length) = some d →
        isWordChar c = true → isWordChar d = true →
        matchLenAt ⟨.wordBoundary, term⟩ text i = none := by
  constructor
  · decide
  · intro term text i c d hne hc hd hwc hwd
    have hlen : 0 < term.length := List.length_pos.mpr hne
    have hiz : ¬ (i + term.length = 0) := by omega
    have hb : bdryAt text (i + term.length) = false := by
      simp only [bdryAt, if_neg hiz, hc, hd, optWord, hwc, hwd]
      simp
    simp [matchLenAt, hb]

/-! ## Slow path (slow_path.py): GLiNER-based extraction

The model is opaque: `model : Option (String → List GEntity)` is the loaded
predictor (`none` when the gliner package or model failed to load), and
everything around the prediction call is embedded from the source. -/

/-- A raw entity as returned by `model.predict_entities`. -/
structure GEntity where
  text : String
  label : String
  score : ℚ
deriving DecidableEq

/-- `SlowPathConfig`. -/
structure SlowPathConfig where
  model_name : String
  threshold : ℚ
  min_confidence : ℚ
  enabled : Bool
  flat_ner : Bool
  multi_label : Bool
  batch_size : Nat
deriving DecidableEq

/-- `LABEL_TO_CATEGORY`. -/
def LABEL_TO_CATEGORY : List (String × String) :=
  [("programming language", "Programming Language"),
   ("database", "Database"),
   ("cloud platform", "Cloud Platform"),
   ("cloud service", "Cloud Platform"),
   ("big data tool", "Big Data"),
   ("data engineering tool", "Data Engineering"),
   ("machine learning framework", "Machine Learning"),
   ("devops tool", "DevOps"),
   ("web framework", "Web Framework"),
   ("frontend framework", "Web Framework"),
   ("backend framework", "Web Framework"),
   ("data visualization tool", "Data Visualization"),
   ("version control", "Version Control"),
   ("api technology", "API & Integration"),
   ("testing framework", "Testing"),
   ("security tool", "Security"),
   ("operating system", "Operating System"),
   ("containerization tool", "DevOps"),
   ("orchestration tool", "DevOps"),
   ("message queue", "Big Data"),
   ("data warehouse", "Database"),
   ("etl tool", "Data Engineering"),
   ("bi tool", "Data Visualization"),
   ("monitoring tool", "DevOps"),
   ("ci cd tool", "DevOps")]

/-- The denylist of `SlowPathExtractor._is_generic_term`. -/
def generic_terms : List String :=
  ["software", "technology", "data", "system", "systems",
   "application", "applications", "tool", "tools", "platform",
   "service", "services", "solution", "solutions", "product",
   "products", "framework", "frameworks", "library", "libraries",
   "code", "coding", "programming", "development", "engineering",
   "analysis", "analytics", "database", "databases", "cloud",
   "api", "apis", "web", "mobile", "backend", "frontend",
   "server", "servers", "client", "clients", "user", "users",
   "project", "projects", "team", "teams", "experience",
   "skills", "skill", "knowledge", "expertise", "ability"]

/-- `SlowPathExtractor._is_generic_term`. -/
def is_generic_term (term : String) : Bool := generic_terms.contains (pyLower term)

/-- Python `round(score, 3)` (nearest-multiple-of-1/1000, ties to even). -/
def roundTo3 (q : ℚ) : ℚ := (pyRound (q * 1000) : ℚ) / 1000

/-- The entity-processing loop inside `SlowPathExtractor.extract_skills`,
threading the case-insensitive `seen_skills` set. -/
def processEntities (minConf : ℚ) : List GEntity → List String → List SkillRec
  | [], _ => []
  | e :: rest, seen =>
    let skill_name := pyStrip e.text
    if e.score < minConf then processEntities minConf rest seen
    else if skill_name = "" ∨ pyLen skill_name < 2 then processEntities minConf rest seen
    else
      let key := pyLower skill_name
      if key ∈ seen then processEntities minConf rest seen
      else
        let seen' := seen ++ [key]
        if is_generic_term skill_name then processEntities minConf rest seen'
        else
          ⟨skill_name, (alookup e.label LABEL_TO_CATEGORY).getD "Other", e.label,
            0, roundTo3 e.score, "gliner", false⟩ :: processEntities minConf rest seen'

/-- `SlowPathExtractor.extract_skills`. -/
def slow_extract_skills (cfg : SlowPathConfig) (model : Option (String → List GEntity))
    (text : String) : List SkillRec :=
  if cfg.enabled = false then []
  else if text = "" ∨ pyLen (pyStrip text) < 50 then []
  else
    match model with
    | none => []
    | some f => processEntities cfg.min_confidence (f text) []

theorem pyLen_pyStrip_le (s : String) : pyLen (pyStrip s) ≤ pyLen s := by
  show (((s.toList.dropWhile pySpace).reverse.dropWhile pySpace).reverse).length
      ≤ s.toList.length
  rw [List.length_reverse]
  calc ((s.toList.dropWhile pySpace).reverse.dropWhile pySpace).length
      ≤ (s.toList.dropWhile pySpace).reverse.length :=
        (List.dropWhile_sublist pySpace).length_le
    _ = (s.toList.dropWhile pySpace).length := List.length_reverse _
    _ ≤ s.toList.length := (List.dropWhile_sublist pySpace).length_le

/-! ## Claim C9 about the slow path's length gate -/

/-- A 60-character text whose stripped length is 1: one letter followed by
59 spaces. -/
def slowPadded : String := String.mk ('a' :: List.replicate 59 ' ')

def gOn : SlowPathConfig := ⟨"urchade/gliner_medium-v2.1", 2/5, 1/2, true, true, false, 8⟩

/-- A model that would report one high-confidence entity on any input. -/
def gModel : String → List GEntity := fun _ => [⟨"Snowflake", "database", 9/10⟩]

/-- C9 counterexample: a 60-character input (mostly whitespace) IS
short-circuited by the length rule — the extractor returns the empty list
even though processing the model's answer would return a skill — refuting
"texts of 50 characters or more are not short-circuited by this length
rule". -/
theorem padded_text_short_circuited :
    pyLen slowPadded = 60
    ∧ slow_extract_skills gOn (some gModel) slowPadded = []
    ∧ processEntities gOn.min_confidence (gModel slowPadded) [] ≠ [] := by
  refine ⟨by decide, by decide, ?_⟩
  have e1 : pyStrip "Snowflake" = "Snowflake" := by decide
  have e2 : ¬("Snowflake" : String) = "" := by decide
  have e3 : pyLen "Snowflake" = 9 := by decide
  have e4 : is_generic_term "Snowflake" = false := by decide
  simp only [processEntities, gModel, gOn, e1, e3, e4]
  norm_num [e2]

/-- C9 (amended): any text whose raw length is below 50 (in particular the
empty text) yields the empty list without the model being consulted — the
result is [] for every possible model value; and a text whose
whitespace-STRIPPED length is at least 50 is not short-circuited by the
length rule: the result is exactly the processed model output. -/
theorem slow_path_length_gate :
    (∀ (cfg : SlowPathConfig) (model : Option (String → List GEntity)) (text : String),
        pyLen text < 50 → slow_extract_skills cfg model text = [])
    ∧ (∀ (cfg : SlowPathConfig) (f : String → List GEntity) (text : String),
        cfg.enabled = true → 50 ≤ pyLen (pyStrip text) →
        slow_extract_skills cfg (some f) text =
          processEntities cfg.min_confidence (f text) []) := by
  constructor
  · intro cfg model text h
    by_cases he : cfg.enabled = false
    · simp [slow_extract_skills, he]
    · have hgate : pyLen (pyStrip text) < 50 := lt_of_le_of_lt (pyLen_pyStrip_le text) h
      simp only [slow_extract_skills, if_neg he, if_pos (Or.inr hgate)]
  · intro cfg f text hen hlen
    have h1 : ¬ (cfg.enabled = false) := by simp [hen]
    have h2 : ¬ (text = "" ∨ pyLen (pyStrip text) < 50) := by
      push_neg
      refine ⟨?_, by omega⟩
      intro h0
      rw [h0] at hlen
      have : pyLen (pyStrip "") = 0 := by decide
      omega
    simp only [slow_extract_skills, if_neg h1, if_neg h2]

/-- C9 witness at a concrete input: the amended theorem applied at a short
text and at a long all-letter text. -/
theorem slow_path_length_gate_note :
    slow_extract_skills gOn (some gModel) "short" = [] := by
  exact slow_path_length_gate.1 gOn (some gModel) "short" (by decide)

/-! ## Hybrid orchestrator (hybrid.py): routing and merge -/

/-- `HybridConfig` (the fields the routing and merge logic reads). -/
structure HybridConfig where
  enable_gliner : Bool
  min_skills_for_fast_only : Nat
  always_discover : Bool
  discovery_sample_rate : ℚ
  auto_promote : Bool
deriving DecidableEq

/-- `HybridSkillExtractor._should_invoke_gliner`: `available` is
`slow_path.is_available()`, `counter` the extractor's
`_extraction_counter`; returns the decision and the updated counter. -/
def should_invoke_gliner (cfg : HybridConfig) (available : Bool) (counter : Nat)
    (fast_results : List SkillRec) : Bool × Nat :=
  if cfg.enable_gliner = false then (false, counter)
  else if available = false then (false, counter)
  else if cfg.always_discover then (true, counter)
  else if fast_results.length < cfg.min_skills_for_fast_only then (true, counter)
  else
    let c := counter + 1
    let sample_interval : Nat :=
      if 0 < cfg.discovery_sample_rate then (pyInt (1 / cfg.discovery_sample_rate)).toNat
      else 0
    if 0 < sample_interval ∧ c % sample_interval = 0 then (true, c) else (false, c)

/-- Modelled from the spec's words, for comparison with
`should_invoke_gliner` (C5): false whenever the backend's `is_available()`
is false; else true if discovery is globally forced; else true if the
fast-path result count is below the minimum-skills threshold; else true
exactly when the sampling counter reaches a multiple of the sample interval
`round(1/sample_rate)`; else false. -/
def should_invoke_discovery_specref (cfg : HybridConfig) (available : Bool)
    (counter : Nat) (fast_results : List SkillRec) : Bool × Nat :=
  if available = false then (false, counter)
  else if cfg.always_discover then (true, counter)
  else if fast_results.length < cfg.min_skills_for_fast_only then (true, counter)
  else
    let c := counter + 1
    let sample_interval : Nat := (pyRound (1 / cfg.discovery_sample_rate)).toNat
    if 0 < sample_interval ∧ c % sample_interval = 0 then (true, c) else (false, c)

/-- The C5 reference amended as the code forces: the sample interval is
`int(1/sample_rate)` (truncation) when the rate is positive, 0 otherwise,
instead of `round(1/sample_rate)`. -/
def should_invoke_discovery_amended (cfg : HybridConfig) (available : Bool)
    (counter : Nat) (fast_results : List SkillRec) : Bool × Nat :=
  if available = false then (false, counter)
  else if cfg.always_discover then (true, counter)
  else if fast_results.length < cfg.min_skills_for_fast_only then (true, counter)
  else
    let c := counter + 1
    let sample_interval : Nat :=
      if 0 < cfg.discovery_sample_rate then (pyInt (1 / cfg.discovery_sample_rate)).toNat
      else 0
    if 0 < sample_interval ∧ c % sample_interval = 0 then (true, c) else (false, c)

/-- `HybridSkillExtractor._validate_against_taxonomy`: split GLiNER results
into (verified, unverified), tagging each record; `self.fast_path and
is_known_skill(...)` is falsy whenever no fast path was built. -/
def validate_against_taxonomy (fast_path : Option FastPathState) :
    List SkillRec → List SkillRec × List SkillRec
  | [] => ([], [])
  | s :: rest =>
    let acc := validate_against_taxonomy fast_path rest
    let known : Bool := match fast_path with
      | some fp => is_known_skill fp s.skill_name
      | none => false
    if known then
      (⟨s.skill_name, s.category, s.subcategory, s.mention_count, s.confidence,
        "gliner_verified", true⟩ :: acc.1, acc.2)
    else
      (acc.1, ⟨s.skill_name, s.category, s.subcategory, s.mention_count, s.confidence,
        "gliner_unverified", false⟩ :: acc.2)

/-- The tagging the merge applies to every fast-path record. -/
def tagTaxonomy (s : SkillRec) : SkillRec :=
  ⟨s.skill_name, s.category, s.subcategory, s.mention_count, s.confidence,
   "taxonomy", true⟩

/-- First loop of `_merge_results`: fast-path results are tagged
`taxonomy`/verified and written into the merge dict keyed by lower-cased
name. -/
def mergeFast (fast_results : List SkillRec) : List (String × SkillRec) :=
  fast_results.foldl
    (fun m s => assocSet (pyLower s.skill_name) (tagTaxonomy s) m) []

/-- Second loop of `_merge_results`: GLiNER-verified records are added only
under keys not already present. -/
def mergeVerified (ver : List SkillRec) (m0 : List (String × SkillRec)) :
    List (String × SkillRec) :=
  ver.foldl
    (fun m s => if (alookup (pyLower s.skill_name) m).isSome then m
                else assocSet (pyLower s.skill_name) s m) m0

/-- Third loop of `_merge_results`: unverified discoveries are added only
under fresh keys, and those added are also collected as new discoveries. -/
def mergeUnverified (unver : List SkillRec) (m1 : List (String × SkillRec)) :
    List (String × SkillRec) × List SkillRec :=
  unver.foldl
    (fun (p : List (String × SkillRec) × List SkillRec) s =>
      if (alookup (pyLower s.skill_name) p.1).isSome then p
      else (assocSet (pyLower s.skill_name) s p.1, p.2 ++ [s])) (m1, [])

/-- `HybridSkillExtractor._merge_results`: returns (merged list,
new discoveries). -/
def merge_results (fast_path : Option FastPathState)
    (fast_results gliner_results : List SkillRec) :
    List SkillRec × List SkillRec :=
  let vu := validate_against_taxonomy fast_path gliner_results
  let final := mergeUnverified vu.2 (mergeVerified vu.1 (mergeFast fast_results))
  (final.1.map Prod.snd, final.2)

/-! ## Helper lemmas about the merge map -/

theorem foldl_invariant {σ β : Type _} (step : σ → β → σ) (P : σ → Prop)
    (h : ∀ s b, P s → P (step s b)) :
    ∀ (l : List β) (s : σ), P s → P (l.foldl step s) := by
  intro l
  induction l with
  | nil => intro s hs; exact hs
  | cons b rest ih => intro s hs; exact ih (step s b) (h s b hs)

theorem mem_assocSet (kv : String × α) (k : String) (v : α) (m : List (String × α))
    (h : kv ∈ assocSet k v m) : kv ∈ m ∨ kv = (k, v) := by
  induction m with
  | nil => simpa [assocSet] using h
  | cons kv₀ rest ih =>
    obtain ⟨k₀, v₀⟩ := kv₀
    by_cases hk : k₀ = k
    · simp only [assocSet, hk, if_true] at h
      rcases List.mem_cons.mp h with h | h
      · right; exact h
      · left; exact List.mem_cons_of_mem _ h
    · simp only [assocSet, hk, if_false] at h
      rcases List.mem_cons.mp h with h | h
      · left; exact h ▸ List.mem_cons_self _ _
      · rcases ih h with h' | h'
        · left; exact List.mem_cons_of_mem _ h'
        · right; exact h'

theorem keys_assocSet (k : String) (v : α) (m : List (String × α)) :
    (assocSet k v m).map Prod.fst =
      if (alookup k m).isSome then m.map Prod.fst else m.map Prod.fst ++ [k] := by
  induction m with
  | nil => simp [assocSet, alookup]
  | cons kv rest ih =>
    obtain ⟨k₀, v₀⟩ := kv
    by_cases hk : k₀ = k
    · simp [assocSet, alookup, hk]
    · simp only [assocSet, alookup, hk, if_false, List.map_cons, ih]
      by_cases hs : (alookup k rest).isSome
      · simp [hs]
      · simp [hs]

theorem alookup_eq_none_iff (k : String) (m : List (String × α)) :
    alookup k m = none ↔ k ∉ m.map Prod.fst := by
  induction m with
  | nil => simp [alookup]
  | cons kv rest ih =>
    obtain ⟨k₀, v₀⟩ := kv
    by_cases hk : k₀ = k
    · simp [alookup, hk]
    · simp [alookup, hk, ih, Ne.symm hk]

theorem alookup_isSome_assocSet (k k' : String) (v : α) (m : List (String × α))
    (h : (alookup k m).isSome) : (alookup k (assocSet k' v m)).isSome := by
  by_cases hk : k = k'
  · subst hk; rw [alookup_assocSet_self]; rfl
  · rw [alookup_assocSet_ne _ _ _ _ hk]; exact h

theorem alookup_of_mem_nodup (k : String) (v : α) (m : List (String × α))
    (hmem : (k, v) ∈ m) (hnd : (m.map Prod.fst).Nodup) : alookup k m = some v := by
  induction m with
  | nil => simp at hmem
  | cons kv rest ih =>
    obtain ⟨k₀, v₀⟩ := kv
    simp only [List.map_cons, List.nodup_cons] at hnd
    rcases List.mem_cons.mp hmem with h | h
    · injection h with hk hv
      subst hk; subst hv
      simp [alookup]
    · have hk : k₀ ≠ k := by
        intro he
        refine hnd.1 ?_
        rw [he]
        exact List.mem_map.mpr ⟨(k, v), h, rfl⟩
      simp only [alookup, hk, if_false]
      exact ih h hnd.2

theorem mem_of_alookup_eq_some (k : String) (v : α) (m : List (String × α))
    (h : alookup k m = some v) : (k, v) ∈ m := by
  induction m with
  | nil => simp [alookup] at h
  | cons kv rest ih =>
    obtain ⟨k₀, v₀⟩ := kv
    by_cases hk : k₀ = k
    · simp only [alookup, hk, if_true, Option.some.injEq] at h
      subst hk; subst h; exact List.mem_cons_self _ _
    · simp only [alookup, hk, if_false] at h
      exact List.mem_cons_of_mem _ (ih h)

/-- Invariant of the merge dict: every key is the lower-cased name of its
value, and keys are pairwise distinct. -/
def goodMap (m : List (String × SkillRec)) : Prop :=
  (∀ kv ∈ m, kv.1 = pyLower kv.2.skill_name) ∧ (m.map Prod.fst).Nodup

theorem goodMap_nil : goodMap [] := ⟨by simp, by simp⟩

theorem goodMap_assocSet (m : List (String × SkillRec)) (v : SkillRec)
    (h : goodMap m) : goodMap (assocSet (pyLower v.skill_name) v m) := by
  obtain ⟨h1, h2⟩ := h
  constructor
  · intro kv hkv
    rcases mem_assocSet kv _ _ m hkv with h' | h'
    · exact h1 kv h'
    · rw [h']
  · rw [keys_assocSet]
    by_cases hs : (alookup (pyLower v.skill_name) m).isSome
    · simp [hs, h2]
    · simp only [hs, if_false]
      have hnotin : pyLower v.skill_name ∉ m.map Prod.fst :=
        (alookup_eq_none_iff _ m).mp (Option.not_isSome_iff_eq_none.mp hs)
      simp [List.nodup_append, h2, hnotin]

theorem goodMap_mergeFast (fast_results : List SkillRec) :
    goodMap (mergeFast fast_results) :=
  foldl_invariant _ goodMap
    (fun m s hm => goodMap_assocSet m (tagTaxonomy s) hm) fast_results [] goodMap_nil

theorem goodMap_mergeVerified (ver : List SkillRec) (m0 : List (String × SkillRec))
    (h : goodMap m0) : goodMap (mergeVerified ver m0) :=
  foldl_invariant _ goodMap
    (fun m s hm => by
      by_cases hs : (alookup (pyLower s.skill_name) m).isSome
      · rw [if_pos hs]; exact hm
      · rw [if_neg hs]; exact goodMap_assocSet m s hm) ver m0 h

theorem goodMap_mergeUnverified (unver : List SkillRec)
    (m1 : List (String × SkillRec)) (h : goodMap m1) :
    goodMap (mergeUnverified unver m1).1 := by
  unfold mergeUnverified
  exact foldl_invariant
    (fun (p : List (String × SkillRec) × List SkillRec) s =>
      if (alookup (pyLower s.skill_name) p.1).isSome then p
      else (assocSet (pyLower s.skill_name) s p.1, p.2 ++ [s]))
    (fun p => goodMap p.1)
    (fun p s hp => by
      show goodMap (if (alookup (pyLower s.skill_name) p.1).isSome then p
        else (assocSet (pyLower s.skill_name) s p.1, p.2 ++ [s])).1
      by_cases hs : (alookup (pyLower s.skill_name) p.1).isSome
      · rw [if_pos hs]; exact hp
      · rw [if_neg hs]; exact goodMap_assocSet p.1 s hp)
    unver (m1, []) h

theorem alookup_mergeVerified_of_some (ver : List SkillRec)
    (m0 : List (String × SkillRec)) (k : String) (v : SkillRec)
    (h : alookup k m0 = some v) : alookup k (mergeVerified ver m0) = some v := by
  unfold mergeVerified
  exact foldl_invariant
    (fun (m : List (String × SkillRec)) s =>
      if (alookup (pyLower s.skill_name) m).isSome then m
      else assocSet (pyLower s.skill_name) s m)
    (fun m => alookup k m = some v)
    (fun m s hm => by
      have hm' : alookup k m = some v := hm
      show alookup k (if (alookup (pyLower s.skill_name) m).isSome then m
        else assocSet (pyLower s.skill_name) s m) = some v
      by_cases hs : (alookup (pyLower s.skill_name) m).isSome
      · rw [if_pos hs]; exact hm'
      · rw [if_neg hs]
        have hne : k ≠ pyLower s.skill_name := by
          intro he
          apply hs
          rw [← he, hm']
          rfl
        rw [alookup_assocSet_ne _ _ _ _ hne]; exact hm')
    ver m0 h

theorem alookup_mergeUnverified_of_some (unver : List SkillRec)
    (m1 : List (String × SkillRec)) (k : String) (v : SkillRec)
    (h : alookup k m1 = some v) : alookup k (mergeUnverified unver m1).1 = some v := by
  unfold mergeUnverified
  exact foldl_invariant
    (fun (p : List (String × SkillRec) × List SkillRec) s =>
      if (alookup (pyLower s.skill_name) p.1).isSome then p
      else (assocSet (pyLower s.skill_name) s p.1, p.2 ++ [s]))
    (fun p => alookup k p.1 = some v)
    (fun p s hp => by
      have hp' : alookup k p.1 = some v := hp
      show alookup k (if (alookup (pyLower s.skill_name) p.1).isSome then p
        else (assocSet (pyLower s.skill_name) s p.1, p.2 ++ [s])).1 = some v
      by_cases hs : (alookup (pyLower s.skill_name) p.1).isSome
      · rw [if_pos hs]; exact hp'
      · rw [if_neg hs]
        have hne : k ≠ pyLower s.skill_name := by
          intro he
          apply hs
          rw [← he, hp']
          rfl
        show alookup k (assocSet (pyLower s.skill_name) s p.1) = some v
        rw [alookup_assocSet_ne _ _ _ _ hne]; exact hp')
    unver (m1, []) h

theorem mergeFast_values_tagged (fast_results : List SkillRec) :
    ∀ kv ∈ mergeFast fast_results,
      kv.2.extraction_method = "taxonomy" ∧ kv.2.verified = true := by
  unfold mergeFast
  exact foldl_invariant
    (fun (m : List (String × SkillRec)) s =>
      assocSet (pyLower s.skill_name) (tagTaxonomy s) m)
    (fun m => ∀ kv ∈ m, kv.2.extraction_method = "taxonomy" ∧ kv.2.verified = true)
    (fun m s hm kv hkv => by
      rcases mem_assocSet kv _ _ m hkv with h' | h'
      · exact hm kv h'
      · rw [h']; exact ⟨rfl, rfl⟩)
    fast_results [] (by simp)

theorem foldl_reaches {σ β : Type _} (step : σ → β → σ) (Q : σ → Prop)
    (hpres : ∀ m b, Q m → Q (step m b)) :
    ∀ (l : List β) (b₀ : β), b₀ ∈ l → (∀ m, Q (step m b₀)) →
      ∀ init, Q (l.foldl step init) := by
  intro l
  induction l with
  | nil => intro b₀ hb; simp at hb
  | cons b rest ih =>
    intro b₀ hb hest init
    rcases List.mem_cons.mp hb with he | he
    · subst he
      exact foldl_invariant step Q hpres rest _ (hest init)
    · exact ih b₀ he hest (step init b)

theorem mergeFast_key_present (fast_results : List SkillRec) (f : SkillRec)
    (hf : f ∈ fast_results) :
    (alookup (pyLower f.skill_name) (mergeFast fast_results)).isSome :=
  foldl_reaches _ _
    (fun m s hm => alookup_isSome_assocSet _ _ _ m hm) fast_results f hf
    (fun m => by rw [alookup_assocSet_self]; rfl) []

/-! ## Claims about the hybrid orchestrator -/

/-- C6: the merged mention list contains no two entries whose skill_name
values differ only by case, whatever the fast-path and discovery inputs. -/
theorem merged_no_case_duplicates (fp : Option FastPathState)
    (fast_results gliner_results : List SkillRec) :
    (merge_results fp fast_results gliner_results).1.Pairwise
      (fun a b => pyLower a.skill_name ≠ pyLower b.skill_name) := by
  simp only [merge_results]
  have hg : goodMap (mergeUnverified (validate_against_taxonomy fp gliner_results).2
      (mergeVerified (validate_against_taxonomy fp gliner_results).1
        (mergeFast fast_results))).1 :=
    goodMap_mergeUnverified _ _ (goodMap_mergeVerified _ _ (goodMap_mergeFast _))
  obtain ⟨h1, h2⟩ := hg
  have hkeys : (mergeUnverified (validate_against_taxonomy fp gliner_results).2
      (mergeVerified (validate_against_taxonomy fp gliner_results).1
        (mergeFast fast_results))).1.map Prod.fst =
      (mergeUnverified (validate_against_taxonomy fp gliner_results).2
      (mergeVerified (validate_against_taxonomy fp gliner_results).1
        (mergeFast fast_results))).1.map (fun kv => pyLower kv.2.skill_name) :=
    List.map_congr_left h1
  rw [hkeys] at h2
  rw [List.pairwise_map]
  exact (List.pairwise_map).mp h2

/-- C7: a skill found (case-insensitively) both by the fast path and by the
discovery backend appears in the merged result tagged `taxonomy` and
verified — the fast-path entry is never overwritten. -/
theorem fast_path_authority (fp : Option FastPathState)
    (fast_results gliner_results : List SkillRec) (s : SkillRec)
    (hs : s ∈ (merge_results fp fast_results gliner_results).1)
    (hfast : ∃ f ∈ fast_results, pyLower f.skill_name = pyLower s.skill_name)
    (_hgl : ∃ g ∈ gliner_results, pyLower g.skill_name = pyLower s.skill_name) :
    s.extraction_method = "taxonomy" ∧ s.verified = true := by
  obtain ⟨f, hf, hkey⟩ := hfast
  simp only [merge_results] at hs
  have hg : goodMap (mergeUnverified (validate_against_taxonomy fp gliner_results).2
      (mergeVerified (validate_against_taxonomy fp gliner_results).1
        (mergeFast fast_results))).1 :=
    goodMap_mergeUnverified _ _ (goodMap_mergeVerified _ _ (goodMap_mergeFast _))
  obtain ⟨kv, hkv, hsnd⟩ := List.mem_map.mp hs
  obtain ⟨k0, s0⟩ := kv
  have hs0 : s0 = s := hsnd
  have hk0 : k0 = pyLower s.skill_name := by
    have := hg.1 (k0, s0) hkv
    rw [hs0] at this
    exact this
  have hmemfin : (pyLower s.skill_name, s) ∈
      (mergeUnverified (validate_against_taxonomy fp gliner_results).2
      (mergeVerified (validate_against_taxonomy fp gliner_results).1
        (mergeFast fast_results))).1 := by
    rw [← hk0, ← hs0]
    exact hkv
  have hlook : alookup (pyLower s.skill_name)
      (mergeUnverified (validate_against_taxonomy fp gliner_results).2
      (mergeVerified (validate_against_taxonomy fp gliner_results).1
        (mergeFast fast_results))).1 = some s :=
    alookup_of_mem_nodup _ _ _ hmemfin hg.2
  have hpres : (alookup (pyLower s.skill_name) (mergeFast fast_results)).isSome := by
    rw [← hkey]
    exact mergeFast_key_present fast_results f hf
  obtain ⟨v0, hv0⟩ := Option.isSome_iff_exists.mp hpres
  have h1 : alookup (pyLower s.skill_name)
      (mergeVerified (validate_against_taxonomy fp gliner_results).1
        (mergeFast fast_results)) = some v0 :=
    alookup_mergeVerified_of_some _ _ _ _ hv0
  have h2 : alookup (pyLower s.skill_name)
      (mergeUnverified (validate_against_taxonomy fp gliner_results).2
      (mergeVerified (validate_against_taxonomy fp gliner_results).1
        (mergeFast fast_results))).1 = some v0 :=
    alookup_mergeUnverified_of_some _ _ _ _ h1
  have hv0s : v0 = s := by
    rw [hlook] at h2
    exact (Option.some.inj h2).symm
  have htag := mergeFast_values_tagged fast_results (pyLower s.skill_name, v0)
    (mem_of_alookup_eq_some _ _ _ hv0)
  rw [hv0s] at htag
  exact htag

def fRec : SkillRec := ⟨"SQL", "Database", "", 3, 0, "fast_path", false⟩

def gRec : SkillRec := ⟨"sql", "Database", "database", 0, 0, "gliner", false⟩

/-- C7 witness: with fast result SQL and discovery result sql for the same
document, the merged entry is the taxonomy-tagged, verified one. -/
theorem fast_path_authority_witness :
    (tagTaxonomy fRec).extraction_method = "taxonomy"
    ∧ (tagTaxonomy fRec).verified = true :=
  fast_path_authority none [fRec] [gRec] (tagTaxonomy fRec)
    (by decide) (by decide) (by decide)

/-- A configuration with sampling rate 0.6, where truncation and rounding of
1/sample_rate disagree (int gives 1, round gives 2). -/
def cfgTrunc : HybridConfig := ⟨true, 0, false, 3/5, false⟩

/-- C5 counterexample: at sample_rate = 0.6 the code's routing decision
(interval `int(1/rate)` = 1) is true on the first sampled document, while
the spec's reference decision (interval `round(1/rate)` = 2) is false — so
the routing decision does not equal the claim's reference definition. -/
theorem routing_round_vs_int :
    (should_invoke_gliner cfgTrunc true 0 []).1 = true
    ∧ (should_invoke_discovery_specref cfgTrunc true 0 []).1 = false := by
  have hq : (1 / (3/5 : ℚ)) = 5/3 := by norm_num
  have hfloor : ⌊(5/3 : ℚ)⌋ = 1 := by
    rw [Int.floor_eq_iff]
    norm_num
  have hint : pyInt (5/3 : ℚ) = 1 := by
    rw [pyInt, if_neg (by norm_num), hfloor]
  have hround : pyRound (5/3 : ℚ) = 2 := by
    rw [pyRound, hfloor]
    norm_num
  constructor
  · simp only [should_invoke_gliner, cfgTrunc, hq, hint]
    norm_num
  · simp only [should_invoke_discovery_specref, cfgTrunc, hq, hround]
    norm_num
    decide

def fastTwo : List SkillRec :=
  [⟨"Python", "Programming Language", "", 1, 0, "fast_path", false⟩,
   ⟨"SQL", "Database", "", 1, 0, "fast_path", false⟩]

/-- C5 (amended): in every reachable configuration (the backend reports
unavailable whenever GLiNER is disabled), the code's routing decision equals
the reference definition with the sample interval computed as
`int(1/sample_rate)` (truncation toward zero, guarded by rate > 0) instead
of `round(1/sample_rate)`; and with min_skills_for_fast_only = 5 and only 2
fast-path skills it returns true even with sampling disabled. -/
theorem routing_code_behavior :
    (∀ (cfg : HybridConfig) (available : Bool) (counter : Nat)
        (fast_results : List SkillRec),
        (cfg.enable_gliner = false → available = false) →
        should_invoke_gliner cfg available counter fast_results =
          should_invoke_discovery_amended cfg available counter fast_results)
    ∧ (should_invoke_gliner ⟨true, 5, false, 0, false⟩ true 0 fastTwo).1 = true := by
  constructor
  · intro cfg available counter fast_results h
    cases he : cfg.enable_gliner with
    | false =>
      have ha := h he
      simp [should_invoke_gliner, should_invoke_discovery_amended, he, ha]
    | true =>
      simp [should_invoke_gliner, should_invoke_discovery_amended, he]
  · decide
